import Mathlib

/-!
Verification of the `butler` block service
(`src/butler/block_service/block_service.py`).

We shallowly embed the inventory state of `BlockService` and its
operations.  the Python `collections.deque` used for `block_queue` is
modelled as a Lean `List` in deque left-to-right order:
`pop()` removes the RIGHT end (the last list element) and
`extendleft` pushes elements one at a time onto the LEFT end (the
list head).  Python `list`s (`in_progress`, `time_stamps`,
`processed_list`, `failed_blocks`) are Lean lists with `append`,
`eraseIdx`, `get?`, `index` (`findIdx?`) mirroring the Python
operations.  Wall-clock times are integers passed explicitly.
-/

namespace Butler

/-- A block is an ordered tuple of integer offsets (arity 3 in the
reference configuration, but the service treats it opaquely). -/
abbrev Block := List Int

/-- Model of `deque.pop()`: remove and return the rightmost element; raises
(here: `none`) on an empty deque. -/
def dequePop (q : List Block) : Option (Block × List Block) :=
  match q.getLast? with
  | none => none
  | some b => some (b, q.dropLast)

/-- Model of `deque.extendleft(xs)`: push the elements of `xs` one at a time
onto the left end of the deque. -/
def dequeExtendleft (xs : List Block) (q : List Block) : List Block :=
  xs.foldl (fun d x => x :: d) q

/-- The mutable inventory fields of `BlockService`, plus the
configuration fields the operations read. -/
structure ServiceState where
  block_queue : List Block
  in_progress : List Block
  time_stamps : List Int
  processed_list : List Block
  failed_blocks : List Block
  try_counter : Nat
  num_retries : Nat
  time_limit : Int
deriving DecidableEq, Repr

/-- Model of `BlockService.__init__`: the inventory right after construction.
The input file holds a list of blocks; the code stores
`deque(reversed(json.load(f)))`, so the deque left-to-right content is
the reversed file order. -/
def initState (file : List Block) (time_limit : Int) (num_retries : Nat) :
    ServiceState :=
  { block_queue := file.reverse
    in_progress := []
    time_stamps := []
    processed_list := []
    failed_blocks := []
    try_counter := 0
    num_retries := num_retries
    time_limit := time_limit }

/-- Model of `BlockService.confirm_block`: look up the first occurrence of the
block in `in_progress` (`list.index`); if found, delete it and the
timestamp at the same index and append the block to `processed_list`,
returning `True`; if `list.index` raises `ValueError`, return `False`
and change nothing. -/
def confirm_block (b : Block) (s : ServiceState) : Bool × ServiceState :=
  match s.in_progress.findIdx? (fun x => x = b) with
  | some index =>
      (true,
       { s with
         in_progress := s.in_progress.eraseIdx index
         time_stamps := s.time_stamps.eraseIdx index
         processed_list := s.processed_list ++ [b] })
  | none => (false, s)

/-- The dispatch branch of `BlockService.request_block` (lines
134-138 and 154-157): pop a block off the right of the queue, append
it to `in_progress` and the current time to `time_stamps`.  `none`
models the `IndexError` a pop on an empty deque raises. -/
def requestDispatch (now : Int) (s : ServiceState) :
    Option (Block × ServiceState) :=
  match dequePop s.block_queue with
  | none => none
  | some (b, q) =>
      some (b,
        { s with
          block_queue := q
          in_progress := s.in_progress ++ [b]
          time_stamps := s.time_stamps ++ [now] })

/-- Model of `BlockService.repopulate_queue`: extend the queue on the left with
the failed blocks, clear the failed list, then pop one block and
dispatch it.  `none` models the `IndexError` when the pop finds the
queue empty. -/
def repopulate_queue (now : Int) (s : ServiceState) :
    Option (Block × ServiceState) :=
  let q := dequeExtendleft s.failed_blocks s.block_queue
  match dequePop q with
  | none => none
  | some (b, q2) =>
      some (b,
        { s with
          block_queue := q2
          failed_blocks := []
          in_progress := s.in_progress ++ [b]
          time_stamps := s.time_stamps ++ [now] })

/-- The retry branch of `BlockService.request_block` (lines 159-162):
guarded by `try_counter < num_retries` and `failed_blocks` non-empty,
call `repopulate_queue` and increment `try_counter`. -/
def requestRetry (now : Int) (s : ServiceState) :
    Option (Block × ServiceState) :=
  if s.try_counter < s.num_retries ∧ s.failed_blocks ≠ [] then
    match repopulate_queue now s with
    | none => none
    | some (b, s2) => some (b, { s2 with try_counter := s2.try_counter + 1 })
  else none

/-- the Python `enumerate`, starting at index `n`. -/
def pyEnumerate (n : Nat) : List Int → List (Nat × Int)
  | [] => []
  | t :: ts => (n, t) :: pyEnumerate (n + 1) ts

/-- Insert a value into a descending-sorted list of indices, keeping it
descending. -/
def insertDesc (x : Nat) : List Nat → List Nat
  | [] => [x]
  | y :: ys => if y ≤ x then x :: y :: ys else y :: insertDesc x ys

/-- the Python `sorted(ids, reverse=True)`: sort a list of indices in
descending order. -/
def sortDesc (l : List Nat) : List Nat := l.foldr insertDesc []

/-- One iteration of the deletion loop in
`BlockService.check_progress_list`:
`del time_stamps[ii]; failed_blocks.append(in_progress.pop(ii))`.
The state is `(in_progress, time_stamps, failed_blocks)`. -/
def sweepStep (st : List Block × List Int × List Block) (ii : Nat) :
    List Block × List Int × List Block :=
  match st.1[ii]? with
  | some b => (st.1.eraseIdx ii, st.2.1.eraseIdx ii, st.2.2 ++ [b])
  | none => st

/-- One pass of the body of `BlockService.check_progress_list` at wall
time `now`: collect the indices of timestamps over the limit
(`enumerate` + comprehension), then delete them in descending order
(`sorted(failed_block_ids, reverse=True)`), appending each popped
block to `failed_blocks`. -/
def check_progress_scan (now : Int) (s : ServiceState) : ServiceState :=
  let failed_block_ids :=
    ((pyEnumerate 0 s.time_stamps).filter
      (fun q => now - q.2 > s.time_limit)).map Prod.fst
  let res := (sortDesc failed_block_ids).foldl sweepStep
      (s.in_progress, s.time_stamps, s.failed_blocks)
  { s with in_progress := res.1, time_stamps := res.2.1,
           failed_blocks := res.2.2 }

/-- The unsynchronized guard at the top of `BlockService.request_block`
(line 134, `if len(self.block_queue) > 0`): it is evaluated WITHOUT
holding `self.lock`. -/
def queueLenCheck (s : ServiceState) : Bool := s.block_queue.length > 0

/-- Repeatedly dispatch blocks through the `requestDispatch` path (no
sweeper scan, no retry refill in between), recording the order in
which blocks are handed out.  `clock k` is the wall time of the k-th
call. -/
def dispatchAll (clock : Nat → Int) (k : Nat) (s : ServiceState) :
    List Block :=
  match h : requestDispatch (clock k) s with
  | none => []
  | some (b, s2) => b :: dispatchAll clock (k + 1) s2
termination_by s.block_queue.length
decreasing_by
  simp only [requestDispatch, dequePop] at h
  rcases hq : s.block_queue.getLast? with _ | c <;> rw [hq] at h
  · exact absurd h (by simp)
  · simp only [Option.some.injEq, Prod.mk.injEq] at h
    rcases h with ⟨-, h2⟩
    subst h2
    simp only [List.length_dropLast]
    have : s.block_queue ≠ [] := by
      intro hnil; rw [hnil] at hq; simp at hq
    have : 0 < s.block_queue.length := List.length_pos.2 this
    omega

/-!  The wire codec (`BlockRequestHandler`). -/

/-- The whitespace characters recognised by the Python `str.split()`. -/
def isPySpace (c : Char) : Bool :=
  c = ' ' || c = '\t' || c = '\n' || c = '\x0d' ||
  c = '\x0b' || c = '\x0c'

/-- the Python `str.split()` with no separator: split on runs of
whitespace, discarding empty tokens. -/
def pySplit : List Char → List (List Char)
  | [] => []
  | c :: cs =>
      if isPySpace c then pySplit cs
      else ((c :: cs).takeWhile (fun x => !isPySpace x)) ::
        pySplit ((c :: cs).dropWhile (fun x => !isPySpace x))
termination_by s => s.length
decreasing_by
  · simp only [List.length_cons]; omega
  · simp only [List.dropWhile_cons]
    split
    · calc (cs.dropWhile fun x => !isPySpace x).length
          ≤ cs.length := (List.dropWhile_sublist _).length_le
        _ < (c :: cs).length := by simp
    · simp_all

/-- the Python `str.isdigit()` restricted to the ASCII range the wire
protocol uses: non-empty and every character a decimal digit. -/
def pyIsdigit (t : List Char) : Bool :=
  decide (t ≠ []) && t.all (fun c => '0' ≤ c && c ≤ '9')

/-- the Python `int()` on a string of decimal digits. -/
def pyInt (t : List Char) : Nat :=
  t.foldl (fun a c => 10 * a + (c.toNat - 48)) 0

/-- Model of `BlockRequestHandler.format_request`: split the request line into
whitespace-delimited tokens; one token means a new block is requested
(`None`); three all-digit tokens are parsed as a block confirmation;
anything else raises `RuntimeError` (modelled as `Except.error`). -/
def format_request (line : List Char) : Except Unit (Option (List Nat)) :=
  let request := pySplit line
  if request.length = 1 then .ok none
  else if request.length = 3 then
    if request.all pyIsdigit then .ok (some (request.map pyInt))
    else .error ()
  else .error ()

/-- The possible results `BlockService.process_request` hands to
`BlockRequestHandler.format_response`: a confirmation outcome
(`bool`), a dispatched block (`list`) or `None`. -/
inductive PyResponse where
  | bool (b : Bool)
  | list (l : List Int)
  | none
deriving DecidableEq, Repr

/-- Model of `BlockRequestHandler.format_response`: `True ↦ "0"`,
`False ↦ "1"`, a length-3 list joins its entries with single spaces
(the `assert len(response) == 3` is modelled as an error), and `None`
becomes `"stop"`. -/
def format_response : PyResponse → Except Unit String
  | .bool b => .ok (if b then "0" else "1")
  | .list l =>
      if l.length = 3 then .ok (String.intercalate " " (l.map toString))
      else .error ()
  | .none => .ok "stop"

/-!  Status serialization (`BlockService.serialize_status`). -/

/-- The three JSON status files, written under a configured output
location.  `none` models the file not being written. -/
structure StatusFiles where
  failed_file : Option (List Block)
  processed_file : Option (List Block)
  inprogress_file : Option (List Block)
deriving DecidableEq, Repr

/-- Model of `BlockService.serialize_status` with an output location
configured: each of the three lists is dumped to its JSON file only
when it is non-empty. -/
def serialize_status (s : ServiceState) : StatusFiles :=
  { failed_file := if s.failed_blocks ≠ [] then some s.failed_blocks else none
    processed_file := if s.processed_list ≠ [] then some s.processed_list else none
    inprogress_file := if s.in_progress ≠ [] then some s.in_progress else none }

/-- Reload one status file, treating an absent file as the empty
list. -/
def readStatusFile (o : Option (List Block)) : List Block := o.getD []

/-!  The transition system generated by the inventory operations. -/

/-- One inventory-mutating operation of the service: a dispatch from
a non-empty queue, a confirmation, one sweeper scan, or a retry
refill. -/
inductive Step : ServiceState → ServiceState → Prop where
  | dispatch {s s2 : ServiceState} (now : Int) (b : Block) :
      requestDispatch now s = some (b, s2) → Step s s2
  | confirm {s : ServiceState} (b : Block) : Step s (confirm_block b s).2
  | sweep {s : ServiceState} (now : Int) : Step s (check_progress_scan now s)
  | retry {s s2 : ServiceState} (now : Int) (b : Block) :
      requestRetry now s = some (b, s2) → Step s s2

/-- Reachability from a given state by any finite sequence of
inventory operations. -/
inductive Reachable (s0 : ServiceState) : ServiceState → Prop where
  | refl : Reachable s0 s0
  | step {s s2 : ServiceState} : Reachable s0 s → Step s s2 → Reachable s0 s2

/-- All blocks currently tracked by the inventory, across the four
collections. -/
def allBlocks (s : ServiceState) : List Block :=
  s.block_queue ++ s.in_progress ++ s.processed_list ++ s.failed_blocks

/-- The inductive inventory invariant: no block is tracked twice, and
`in_progress` and `time_stamps` stay in lockstep. -/
def Inv (s : ServiceState) : Prop :=
  (allBlocks s).Nodup ∧ s.in_progress.length = s.time_stamps.length

/-!  Basic facts about the deque model. -/

theorem dequeExtendleft_eq (xs q : List Block) :
    dequeExtendleft xs q = xs.reverse ++ q := by
  induction xs generalizing q with
  | nil => rfl
  | cons x xs ih =>
      show (x :: xs).foldl (fun d y => y :: d) q = (x :: xs).reverse ++ q
      rw [List.foldl_cons]
      rw [show ((x :: xs).reverse ++ q) = xs.reverse ++ (x :: q) by simp]
      exact ih (x :: q)

theorem dequePop_concat (l : List Block) (b : Block) :
    dequePop (l ++ [b]) = some (b, l) := by
  simp [dequePop, List.getLast?_concat, List.dropLast_concat]

theorem dequePop_eq_none_iff (q : List Block) :
    dequePop q = none ↔ q = [] := by
  induction q using List.reverseRecOn with
  | nil => simp [dequePop]
  | append_singleton l b _ => simp [dequePop_concat]

theorem dequePop_eq_some_iff {q l : List Block} {b : Block} :
    dequePop q = some (b, l) ↔ q = l ++ [b] := by
  induction q using List.reverseRecOn with
  | nil => simp [dequePop]
  | append_singleton xs x _ =>
      rw [dequePop_concat]
      constructor
      · rintro h
        simp only [Option.some.injEq, Prod.mk.injEq] at h
        rw [h.1, h.2]
      · intro h
        have h2 := List.concat_inj.mp (by simpa [List.concat_eq_append] using h)
        rw [h2.1, h2.2]

theorem requestDispatch_concat (now : Int) (s : ServiceState)
    (l : List Block) (b : Block) (h : s.block_queue = l ++ [b]) :
    requestDispatch now s = some (b,
      { s with block_queue := l
               in_progress := s.in_progress ++ [b]
               time_stamps := s.time_stamps ++ [now] }) := by
  simp [requestDispatch, h, dequePop_concat]

theorem requestDispatch_eq_none_iff (now : Int) (s : ServiceState) :
    requestDispatch now s = none ↔ s.block_queue = [] := by
  constructor
  · intro h
    unfold requestDispatch at h
    rcases hp : dequePop s.block_queue with _ | p <;> rw [hp] at h
    · exact (dequePop_eq_none_iff _).mp hp
    · cases h
  · intro h
    simp only [requestDispatch, h]
    rfl

theorem requestDispatch_eq_some {now : Int} {s : ServiceState} {b : Block}
    {s2 : ServiceState} (h : requestDispatch now s = some (b, s2)) :
    s.block_queue = s2.block_queue ++ [b] ∧
      s2 = { s with block_queue := s2.block_queue
                    in_progress := s.in_progress ++ [b]
                    time_stamps := s.time_stamps ++ [now] } := by
  unfold requestDispatch at h
  rcases hp : dequePop s.block_queue with _ | ⟨c, q⟩ <;> rw [hp] at h
  · cases h
  · simp only [Option.some.injEq, Prod.mk.injEq] at h
    rcases h with ⟨rfl, rfl⟩
    exact ⟨dequePop_eq_some_iff.mp hp, rfl⟩

theorem dispatchAll_eq (clock : Nat → Int) (k : Nat) (s : ServiceState) :
    dispatchAll clock k s = s.block_queue.reverse := by
  generalize hn : s.block_queue.length = n
  induction n using Nat.strong_induction_on generalizing s k with
  | _ n ih =>
    rw [dispatchAll]
    split
    · rename_i h
      rw [(requestDispatch_eq_none_iff _ _).mp h]
      rfl
    · rename_i b s2 h
      obtain ⟨hq, -⟩ := requestDispatch_eq_some h
      have hlen : s2.block_queue.length < n := by
        rw [← hn, hq]; simp
      have h3 := ih s2.block_queue.length hlen (s := s2) (k := k + 1) rfl
      rw [h3, hq]
      simp

/-- C5: the input file is reversed at load and `pending` is consumed
LIFO, so a sequence of request-block calls with no intervening sweeper
expiry or retry refill dispatches the blocks in the original file
order (the first file entry first). -/
theorem dispatch_order_follows_file (clock : Nat → Int) (file : List Block)
    (time_limit : Int) (num_retries : Nat) :
    dispatchAll clock 0 (initState file time_limit num_retries) = file := by
  rw [dispatchAll_eq]
  simp [initState]

/-- C7: the response formatter yields `"0"` for an accepted confirm,
`"1"` for a rejected confirm, the three block integers joined by
single spaces for a dispatched block, and `"stop"` for `None`. -/
theorem format_response_spec (a b c : Int) :
    format_response (.bool true) = .ok "0" ∧
    format_response (.bool false) = .ok "1" ∧
    format_response (.list [a, b, c]) =
      .ok (toString a ++ " " ++ toString b ++ " " ++ toString c) ∧
    format_response .none = .ok "stop" := by
  refine ⟨rfl, rfl, ?_, rfl⟩
  simp [format_response, String.intercalate, String.intercalate.go,
    String.append_assoc]

/-- C8: serializing the status and reloading the three JSON files
(treating an absent file as empty) reconstitutes the failed,
processed and in-flight block sequences, and each file is written iff
the corresponding collection is non-empty. -/
theorem serialize_status_roundtrip (s : ServiceState) :
    readStatusFile (serialize_status s).failed_file = s.failed_blocks ∧
    readStatusFile (serialize_status s).processed_file = s.processed_list ∧
    readStatusFile (serialize_status s).inprogress_file = s.in_progress ∧
    ((serialize_status s).failed_file ≠ none ↔ s.failed_blocks ≠ []) ∧
    ((serialize_status s).processed_file ≠ none ↔ s.processed_list ≠ []) ∧
    ((serialize_status s).inprogress_file ≠ none ↔ s.in_progress ≠ []) := by
  by_cases h1 : s.failed_blocks = [] <;>
    by_cases h2 : s.processed_list = [] <;>
      by_cases h3 : s.in_progress = [] <;>
        simp [serialize_status, readStatusFile, h1, h2, h3]

/-- C9: the guard `len(self.block_queue) > 0` at the top of
`request_block` is evaluated without holding the lock, so two
concurrent callers can both pass it while only one block remains; the
lock then serializes the two pops and the second pop runs on an empty
deque, raising `IndexError` instead of returning a block or `None`. -/
theorem request_block_check_then_pop_race :
    queueLenCheck (initState [[0, 0, 0]] 100 2) = true ∧
    requestDispatch 0 (initState [[0, 0, 0]] 100 2) =
      some ([0, 0, 0],
        { block_queue := []
          in_progress := [[0, 0, 0]]
          time_stamps := [0]
          processed_list := []
          failed_blocks := []
          try_counter := 0
          num_retries := 2
          time_limit := 100 }) ∧
    requestDispatch 0
      { block_queue := []
        in_progress := [[0, 0, 0]]
        time_stamps := [0]
        processed_list := []
        failed_blocks := []
        try_counter := 0
        num_retries := 2
        time_limit := 100 } = none := by
  refine ⟨rfl, ?_, rfl⟩
  rfl

/-- C10: when `repopulate_queue` runs, its caller has already
established (under the lock) that `failed_blocks` is non-empty, so
the queue is non-empty after the refill and the single pop inside
`repopulate_queue` always succeeds; under the full caller guard the
retry branch never reaches the empty-pop error. -/
theorem repopulate_queue_pop_total (now : Int) (s : ServiceState)
    (hf : s.failed_blocks ≠ []) :
    (∃ b s2, repopulate_queue now s = some (b, s2)) ∧
    (s.try_counter < s.num_retries → requestRetry now s ≠ none) := by
  have hq : dequeExtendleft s.failed_blocks s.block_queue ≠ [] := by
    rw [dequeExtendleft_eq]
    simp [hf]
  have hpop : dequePop (dequeExtendleft s.failed_blocks s.block_queue) ≠ none := by
    intro h
    exact hq ((dequePop_eq_none_iff _).mp h)
  rcases hp : dequePop (dequeExtendleft s.failed_blocks s.block_queue)
      with _ | ⟨b, q2⟩
  · exact absurd hp hpop
  · constructor
    · exact ⟨b,
        { s with block_queue := q2
                 failed_blocks := []
                 in_progress := s.in_progress ++ [b]
                 time_stamps := s.time_stamps ++ [now] },
        by simp only [repopulate_queue, hp]⟩
    · intro ht
      simp only [requestRetry, if_pos (And.intro ht hf), repopulate_queue, hp]
      intro h
      cases h

/-- Closed-form instance of `repopulate_queue_pop_total`. -/
theorem repopulate_queue_pop_total_witness :
    ((⟨[], [], [], [], [[7, 8, 9]], 0, 2, 100⟩ : ServiceState).failed_blocks ≠ []) ∧
    ((∃ b s2, repopulate_queue 5 ⟨[], [], [], [], [[7, 8, 9]], 0, 2, 100⟩ =
        some (b, s2)) ∧
      ((⟨[], [], [], [], [[7, 8, 9]], 0, 2, 100⟩ : ServiceState).try_counter <
          (⟨[], [], [], [], [[7, 8, 9]], 0, 2, 100⟩ : ServiceState).num_retries →
        requestRetry 5 ⟨[], [], [], [], [[7, 8, 9]], 0, 2, 100⟩ ≠ none)) :=
  ⟨by decide,
   repopulate_queue_pop_total 5 ⟨[], [], [], [], [[7, 8, 9]], 0, 2, 100⟩
     (by decide)⟩

/-!  Facts about `list.index`-style lookup (`findIdx?`). -/

theorem findIdx?_eq_none_of_not_mem {b : Block} {l : List Block}
    (hb : b ∉ l) : l.findIdx? (fun x => x = b) = none := by
  rw [← Option.not_isSome_iff_eq_none, List.findIdx?_isSome]
  simp only [List.any_eq_true, decide_eq_true_eq, not_exists, not_and]
  intro x hx he
  exact hb (he ▸ hx)

theorem findIdx?_isSome_of_mem {b : Block} {l : List Block}
    (hb : b ∈ l) : (l.findIdx? (fun x => x = b)).isSome = true := by
  rw [List.findIdx?_isSome]
  simp only [List.any_eq_true, decide_eq_true_eq]
  exact ⟨b, hb, rfl⟩

theorem eraseIdx_findIdx_eq_erase (b : Block) :
    ∀ l : List Block, l.eraseIdx (l.findIdx (fun x => x = b)) = l.erase b := by
  intro l
  induction l with
  | nil => rfl
  | cons a l ih =>
      by_cases h : a = b
      · subst h
        simp [List.findIdx_cons, List.erase_cons]
      · have hbeq : (a == b) = false := by
          simp only [beq_eq_false_iff_ne, ne_eq]
          exact h
        simp only [List.findIdx_cons, List.erase_cons, hbeq, cond_eq_if]
        simp only [decide_eq_true_eq, h]
        simp [List.eraseIdx_cons_succ, ih]

/-- C1: if `b` is in flight, `confirm_block b` removes its first
occurrence and the timestamp at the same index and appends `b` to
`processed`, returning accepted; if `b` is not in flight it returns
rejected and changes nothing; hence with `b` in flight exactly once,
two successive confirms yield one acceptance then one rejection. -/
theorem confirm_block_spec (s : ServiceState) (b : Block) :
    (b ∈ s.in_progress →
      ∃ i, s.in_progress.findIdx? (fun x => x = b) = some i ∧
        confirm_block b s =
          (true,
            { s with in_progress := s.in_progress.erase b
                     time_stamps := s.time_stamps.eraseIdx i
                     processed_list := s.processed_list ++ [b] })) ∧
    (b ∉ s.in_progress → confirm_block b s = (false, s)) ∧
    (s.in_progress.count b = 1 →
      (confirm_block b s).1 = true ∧
      (confirm_block b (confirm_block b s).2).1 = false) := by
  have hmem : b ∈ s.in_progress →
      ∃ i, s.in_progress.findIdx? (fun x => x = b) = some i ∧
        confirm_block b s =
          (true,
            { s with in_progress := s.in_progress.erase b
                     time_stamps := s.time_stamps.eraseIdx i
                     processed_list := s.processed_list ++ [b] }) := by
    intro hb
    have hsome := findIdx?_isSome_of_mem hb
    rcases hi : s.in_progress.findIdx? (fun x => x = b) with _ | i
    · rw [hi] at hsome; cases hsome
    · have hidx := (List.findIdx?_eq_some_iff_findIdx_eq.mp hi).2
      refine ⟨i, rfl, ?_⟩
      simp only [confirm_block, hi]
      rw [← hidx, eraseIdx_findIdx_eq_erase]
  have hnot : b ∉ s.in_progress → confirm_block b s = (false, s) := by
    intro hb
    simp only [confirm_block, findIdx?_eq_none_of_not_mem hb]
  refine ⟨hmem, hnot, ?_⟩
  intro hcount
  have hb : b ∈ s.in_progress := List.count_pos_iff.mp (by omega)
  obtain ⟨i, -, heq⟩ := hmem hb
  have h1 : (confirm_block b s).1 = true := by rw [heq]
  refine ⟨h1, ?_⟩
  have hcnt0 : (s.in_progress.erase b).count b = 0 := by
    have := List.count_erase_self b s.in_progress
    omega
  have hnm : b ∉ s.in_progress.erase b := by
    intro hm
    have := List.count_pos_iff.mpr hm
    omega
  rw [heq]
  simp only [confirm_block, findIdx?_eq_none_of_not_mem hnm]

/-- Closed-form instance of `confirm_block_spec`: a block in flight
exactly once is accepted by the first confirm and rejected by the
second. -/
theorem confirm_block_spec_witness :
    ((⟨[], [[1, 2, 3]], [0], [], [], 0, 2, 100⟩ : ServiceState).in_progress.count
        [1, 2, 3] = 1) ∧
    ((confirm_block [1, 2, 3]
        ⟨[], [[1, 2, 3]], [0], [], [], 0, 2, 100⟩).1 = true ∧
      (confirm_block [1, 2, 3]
        (confirm_block [1, 2, 3]
          ⟨[], [[1, 2, 3]], [0], [], [], 0, 2, 100⟩).2).1 = false) :=
  ⟨by decide,
    (confirm_block_spec ⟨[], [[1, 2, 3]], [0], [], [], 0, 2, 100⟩ [1, 2, 3]).2.2
      (by decide)⟩

/-!  Facts about the request-line splitter. -/

theorem pySplit_nil : pySplit [] = [] := by rw [pySplit]

theorem pySplit_cons_space {c : Char} (cs : List Char)
    (h : isPySpace c = true) : pySplit (c :: cs) = pySplit cs := by
  rw [pySplit]
  simp [h]

theorem pySplit_of_all_space :
    ∀ l : List Char, (∀ c ∈ l, isPySpace c = true) → pySplit l = []
  | [], _ => pySplit_nil
  | c :: cs, h => by
      rw [pySplit_cons_space cs (h c (by simp))]
      exact pySplit_of_all_space cs (fun x hx => h x (by simp [hx]))

/-- C6: one whitespace-delimited token means a block request
(`None`); exactly three all-digit tokens are parsed to their integer
values; every other shape of line (wrong token count, or three tokens
with a non-digit, in particular an empty or whitespace-only line)
raises the protocol error. -/
theorem format_request_spec (line : List Char) :
    ((pySplit line).length = 1 → format_request line = .ok none) ∧
    ((pySplit line).length = 3 → (pySplit line).all pyIsdigit = true →
      format_request line = .ok (some ((pySplit line).map pyInt))) ∧
    (format_request line = .error () ↔
      ((pySplit line).length ≠ 1 ∧ (pySplit line).length ≠ 3) ∨
      ((pySplit line).length = 3 ∧ ¬ (pySplit line).all pyIsdigit = true)) ∧
    ((∀ c ∈ line, isPySpace c = true) → format_request line = .error ()) := by
  refine ⟨?_, ?_, ?_, ?_⟩
  · intro h1
    simp [format_request, h1]
  · intro h3 hd
    have h1 : ¬ (pySplit line).length = 1 := by omega
    simp [format_request, h1, h3, hd]
  · by_cases h1 : (pySplit line).length = 1
    · simp [format_request, h1]
    · by_cases h3 : (pySplit line).length = 3
      · by_cases hd : (pySplit line).all pyIsdigit = true
        · simp [format_request, h1, h3, hd]
        · simp [format_request, h1, h3, hd]
      · simp [format_request, h1, h3]
  · intro hs
    have h0 := pySplit_of_all_space line hs
    simp [format_request, h0]

/-- Closed-form instance of `format_request_spec`: the line `1` is a
block request, `1 2 3` confirms block `[1, 2, 3]`, and a single space
raises the protocol error. -/
theorem format_request_spec_witness :
    ((pySplit ['1']).length = 1 ∧ format_request ['1'] = .ok none) ∧
    ((pySplit ['1', ' ', '2', ' ', '3']).length = 3 ∧
      (pySplit ['1', ' ', '2', ' ', '3']).all pyIsdigit = true ∧
      format_request ['1', ' ', '2', ' ', '3'] = .ok (some [1, 2, 3])) ∧
    ((∀ c ∈ [' '], isPySpace c = true) ∧ format_request [' '] = .error ()) := by
  have hs1 : pySplit ['1'] = [['1']] := by simp [pySplit, isPySpace]
  have hs3 : pySplit ['1', ' ', '2', ' ', '3'] = [['1'], ['2'], ['3']] := by
    simp [pySplit, isPySpace]
  refine ⟨⟨by rw [hs1]; rfl, (format_request_spec ['1']).1 (by rw [hs1]; rfl)⟩,
    ⟨by rw [hs3]; rfl, by rw [hs3]; decide, ?_⟩,
    ⟨by decide, (format_request_spec [' ']).2.2.2 (by decide)⟩⟩
  have := (format_request_spec ['1', ' ', '2', ' ', '3']).2.1
    (by rw [hs3]; rfl) (by rw [hs3]; decide)
  rw [hs3] at this
  simpa [pyInt] using this

/-- C4: with `pending` empty, `failed` non-empty and retries left, the
refill moves the whole failed sequence into the queue (whose pop order
is then exactly the original failure order), empties `failed`,
advances `try_counter` by one, and the dispatched block followed by
the subsequent LIFO pops reproduces the failed sequence first-failed
first. -/
theorem retry_refill_spec (clock : Nat → Int) (s : ServiceState)
    (hq : s.block_queue = []) (hf : s.failed_blocks ≠ [])
    (ht : s.try_counter < s.num_retries) :
    dequeExtendleft s.failed_blocks s.block_queue = s.failed_blocks.reverse ∧
    ∃ b s2, requestRetry (clock 0) s = some (b, s2) ∧
      s2.failed_blocks = [] ∧
      s2.try_counter = s.try_counter + 1 ∧
      b :: dispatchAll clock 1 s2 = s.failed_blocks ∧
      s2.in_progress = s.in_progress ++ [b] ∧
      s2.time_stamps = s.time_stamps ++ [clock 0] := by
  have hext0 : dequeExtendleft s.failed_blocks s.block_queue =
      s.failed_blocks.reverse := by
    rw [dequeExtendleft_eq, hq, List.append_nil]
  refine ⟨hext0, ?_⟩
  rcases hfc : s.failed_blocks with _ | ⟨f0, ft⟩
  · exact absurd hfc hf
  have hext : dequeExtendleft s.failed_blocks s.block_queue =
      ft.reverse ++ [f0] := by
    rw [hext0, hfc]
    simp
  have hpop : dequePop (dequeExtendleft s.failed_blocks s.block_queue) =
      some (f0, ft.reverse) := by
    rw [hext]
    exact dequePop_concat _ _
  refine ⟨f0,
    { s with block_queue := ft.reverse
             failed_blocks := []
             in_progress := s.in_progress ++ [f0]
             time_stamps := s.time_stamps ++ [clock 0]
             try_counter := s.try_counter + 1 }, ?_, rfl, rfl, ?_, rfl, rfl⟩
  · rw [requestRetry, if_pos (And.intro ht hf)]
    simp only [repopulate_queue, hpop]
  · rw [dispatchAll_eq]
    simp [hfc]

/-- Closed-form instance of `retry_refill_spec` at a two-element
failed list. -/
theorem retry_refill_spec_witness :
    ((⟨[], [], [], [], [[1, 1, 1], [2, 2, 2]], 0, 2, 100⟩ : ServiceState).block_queue
        = [] ∧
      (⟨[], [], [], [], [[1, 1, 1], [2, 2, 2]], 0, 2, 100⟩ : ServiceState).failed_blocks
        ≠ [] ∧
      (⟨[], [], [], [], [[1, 1, 1], [2, 2, 2]], 0, 2, 100⟩ : ServiceState).try_counter
        < (⟨[], [], [], [], [[1, 1, 1], [2, 2, 2]], 0, 2, 100⟩ : ServiceState).num_retries) ∧
    (dequeExtendleft
        (⟨[], [], [], [], [[1, 1, 1], [2, 2, 2]], 0, 2, 100⟩ : ServiceState).failed_blocks
        (⟨[], [], [], [], [[1, 1, 1], [2, 2, 2]], 0, 2, 100⟩ : ServiceState).block_queue =
      (⟨[], [], [], [], [[1, 1, 1], [2, 2, 2]], 0, 2, 100⟩ : ServiceState).failed_blocks.reverse ∧
    ∃ b s2, requestRetry ((fun _ => 0) 0)
        ⟨[], [], [], [], [[1, 1, 1], [2, 2, 2]], 0, 2, 100⟩ = some (b, s2) ∧
      s2.failed_blocks = [] ∧
      s2.try_counter =
        (⟨[], [], [], [], [[1, 1, 1], [2, 2, 2]], 0, 2, 100⟩ : ServiceState).try_counter + 1 ∧
      b :: dispatchAll (fun _ => 0) 1 s2 =
        (⟨[], [], [], [], [[1, 1, 1], [2, 2, 2]], 0, 2, 100⟩ : ServiceState).failed_blocks ∧
      s2.in_progress =
        (⟨[], [], [], [], [[1, 1, 1], [2, 2, 2]], 0, 2, 100⟩ : ServiceState).in_progress ++ [b] ∧
      s2.time_stamps =
        (⟨[], [], [], [], [[1, 1, 1], [2, 2, 2]], 0, 2, 100⟩ : ServiceState).time_stamps
          ++ [(fun _ => (0 : Int)) 0]) :=
  ⟨⟨rfl, by decide, by decide⟩,
    retry_refill_spec (fun _ => 0)
      ⟨[], [], [], [], [[1, 1, 1], [2, 2, 2]], 0, 2, 100⟩ rfl (by decide) (by decide)⟩

/-!  Characterization of one sweeper scan. -/

theorem insertDesc_of_forall_lt (x : Nat) :
    ∀ l : List Nat, (∀ y ∈ l, x < y) → insertDesc x l = l ++ [x]
  | [], _ => rfl
  | y :: ys, h => by
      have hxy : ¬ y ≤ x := by
        have := h y (by simp)
        omega
      simp only [insertDesc, if_neg hxy, List.cons_append, List.cons.injEq,
        true_and]
      exact insertDesc_of_forall_lt x ys (fun z hz => h z (by simp [hz]))

theorem sortDesc_of_pairwise_lt :
    ∀ l : List Nat, l.Pairwise (· < ·) → sortDesc l = l.reverse
  | [], _ => rfl
  | x :: xs, h => by
      have hx := List.pairwise_cons.mp h
      have hstep : sortDesc (x :: xs) = insertDesc x (sortDesc xs) := rfl
      rw [hstep, sortDesc_of_pairwise_lt xs hx.2,
        insertDesc_of_forall_lt x xs.reverse
          (fun y hy => hx.1 y (List.mem_reverse.mp hy))]
      simp

theorem pyEnumerate_filter_fst_shift (now limit : Int) :
    ∀ (ts : List Int) (n : Nat),
      ((pyEnumerate (n + 1) ts).filter
          (fun q => now - q.2 > limit)).map Prod.fst =
        (((pyEnumerate n ts).filter
          (fun q => now - q.2 > limit)).map Prod.fst).map (fun i => i + 1) := by
  intro ts
  induction ts with
  | nil => intro n; rfl
  | cons t ts ih =>
      intro n
      by_cases hc : now - t > limit
      · simp [pyEnumerate, List.filter_cons, hc, ih (n + 1), List.map_map,
          Function.comp]
      · simp [pyEnumerate, List.filter_cons, hc, ih (n + 1)]

theorem pyEnumerate_filter_fst_sorted (now limit : Int) :
    ∀ (ts : List Int) (n : Nat),
      (∀ x ∈ ((pyEnumerate n ts).filter
          (fun q => now - q.2 > limit)).map Prod.fst, n ≤ x) ∧
      (((pyEnumerate n ts).filter
          (fun q => now - q.2 > limit)).map Prod.fst).Pairwise (· < ·) := by
  intro ts
  induction ts with
  | nil => intro n; simp [pyEnumerate]
  | cons t ts ih =>
      intro n
      rcases ih (n + 1) with ⟨ihle, ihpw⟩
      by_cases hc : now - t > limit
      · have hni : ((pyEnumerate n (t :: ts)).filter
            (fun q => now - q.2 > limit)).map Prod.fst =
              n :: ((pyEnumerate (n + 1) ts).filter
                (fun q => now - q.2 > limit)).map Prod.fst := by
          simp [pyEnumerate, List.filter_cons, hc]
        rw [hni]
        constructor
        · intro x hx
          rcases List.mem_cons.mp hx with rfl | hx2
          · exact le_refl x
          · have := ihle x hx2
            omega
        · refine List.pairwise_cons.mpr ⟨?_, ihpw⟩
          intro x hx
          have := ihle x hx
          omega
      · have hni : ((pyEnumerate n (t :: ts)).filter
            (fun q => now - q.2 > limit)).map Prod.fst =
              ((pyEnumerate (n + 1) ts).filter
                (fun q => now - q.2 > limit)).map Prod.fst := by
          simp [pyEnumerate, List.filter_cons, hc]
        rw [hni]
        exact ⟨fun x hx => by have := ihle x hx; omega, ihpw⟩

theorem foldl_sweepStep_shift :
    ∀ (ids : List Nat) (b : Block) (t : Int) (ip : List Block)
      (ts : List Int) (fl : List Block),
      (ids.map (fun i => i + 1)).foldl sweepStep (b :: ip, t :: ts, fl) =
        (b :: (ids.foldl sweepStep (ip, ts, fl)).1,
         t :: (ids.foldl sweepStep (ip, ts, fl)).2.1,
         (ids.foldl sweepStep (ip, ts, fl)).2.2) := by
  intro ids
  induction ids with
  | nil => intro b t ip ts fl; rfl
  | cons i ids ih =>
      intro b t ip ts fl
      rw [List.map_cons, List.foldl_cons, List.foldl_cons]
      rcases hip : ip[i]? with _ | c
      · have h1 : sweepStep (b :: ip, t :: ts, fl) (i + 1) =
            (b :: ip, t :: ts, fl) := by
          simp [sweepStep, hip]
        have h2 : sweepStep (ip, ts, fl) i = (ip, ts, fl) := by
          simp [sweepStep, hip]
        rw [h1, h2, ih]
      · have h1 : sweepStep (b :: ip, t :: ts, fl) (i + 1) =
            (b :: ip.eraseIdx i, t :: ts.eraseIdx i, fl ++ [c]) := by
          simp [sweepStep, hip, List.eraseIdx_cons_succ]
        have h2 : sweepStep (ip, ts, fl) i =
            (ip.eraseIdx i, ts.eraseIdx i, fl ++ [c]) := by
          simp [sweepStep, hip]
        rw [h1, h2, ih]

theorem sweep_foldl_spec (now limit : Int) :
    ∀ (ts : List Int) (ip : List Block) (fl : List Block),
      ip.length = ts.length →
      (sortDesc (((pyEnumerate 0 ts).filter
          (fun q => now - q.2 > limit)).map Prod.fst)).foldl sweepStep
            (ip, ts, fl) =
        (((ip.zip ts).filter (fun q => now - q.2 ≤ limit)).map Prod.fst,
         ((ip.zip ts).filter (fun q => now - q.2 ≤ limit)).map Prod.snd,
         fl ++ (((ip.zip ts).filter
           (fun q => now - q.2 > limit)).map Prod.fst).reverse) := by
  intro ts
  induction ts with
  | nil =>
      intro ip fl hlen
      have hip : ip = [] := List.length_eq_zero.mp hlen
      subst hip
      simp [pyEnumerate, sortDesc]
  | cons t ts ih =>
      intro ip fl hlen
      rcases ip with _ | ⟨b, ip⟩
      · cases hlen
      have hlen2 : ip.length = ts.length := by
        simpa using hlen
      have hsorted := (pyEnumerate_filter_fst_sorted now limit (t :: ts) 0).2
      rw [sortDesc_of_pairwise_lt _ hsorted]
      have hrev : (((pyEnumerate 0 ts).filter
          (fun q => now - q.2 > limit)).map Prod.fst).reverse.foldl sweepStep
            (ip, ts, fl) =
          (((ip.zip ts).filter (fun q => now - q.2 ≤ limit)).map Prod.fst,
           ((ip.zip ts).filter (fun q => now - q.2 ≤ limit)).map Prod.snd,
           fl ++ (((ip.zip ts).filter
             (fun q => now - q.2 > limit)).map Prod.fst).reverse) := by
        rw [← sortDesc_of_pairwise_lt _
          (pyEnumerate_filter_fst_sorted now limit ts 0).2]
        exact ih ip fl hlen2
      have hshift := pyEnumerate_filter_fst_shift now limit ts 0
      by_cases hc : now - t > limit
      · have hcle : ¬ (now - t ≤ limit) := by omega
        have hcle2 : ¬ (now ≤ limit + t) := by omega
        have hni : ((pyEnumerate 0 (t :: ts)).filter
            (fun q => now - q.2 > limit)).map Prod.fst =
              0 :: (((pyEnumerate 0 ts).filter
                (fun q => now - q.2 > limit)).map Prod.fst).map
                  (fun i => i + 1) := by
          simp [pyEnumerate, List.filter_cons, hc, hshift]
        rw [hni, List.reverse_cons, List.foldl_append,
          ← List.map_reverse, foldl_sweepStep_shift, hrev]
        simp [sweepStep, List.zip_cons_cons, List.filter_cons, hc, hcle, hcle2]
      · have hcle : now - t ≤ limit := by omega
        have hcle2 : now ≤ limit + t := by omega
        have hni : ((pyEnumerate 0 (t :: ts)).filter
            (fun q => now - q.2 > limit)).map Prod.fst =
              (((pyEnumerate 0 ts).filter
                (fun q => now - q.2 > limit)).map Prod.fst).map
                  (fun i => i + 1) := by
          simp [pyEnumerate, List.filter_cons, hc, hshift]
        rw [hni, ← List.map_reverse, foldl_sweepStep_shift, hrev]
        simp [List.zip_cons_cons, List.filter_cons, hc, hcle, hcle2]

/-- Counterexample to the sweeper append-order claim as stated: with
two expired in-flight entries the scan appends them to `failed` in
DESCENDING index order (`sorted(ids, reverse=True)` drives the
deletion loop), not ascending; here indices 0 and 1 both expire and
the entry at index 1 lands on `failed` first. -/
theorem check_progress_scan_ascending_order_cex :
    (check_progress_scan 100
        ⟨[], [[0, 0, 0], [1, 1, 1]], [0, 0], [], [], 0, 2, 1⟩).failed_blocks =
      [[1, 1, 1], [0, 0, 0]] ∧
    ¬ (check_progress_scan 100
        ⟨[], [[0, 0, 0], [1, 1, 1]], [0, 0], [], [], 0, 2, 1⟩).failed_blocks =
      [] ++ ((([[0, 0, 0], [1, 1, 1]] : List Block).zip
          ([0, 0] : List Int)).filter
            (fun q => (100 : Int) - q.2 > 1)).map Prod.fst := by
  constructor
  · decide
  · decide

/-- C3 (amended): one sweeper scan at wall time `now` moves exactly
the in-flight entries whose timestamp `t` satisfies `now - t >
time_limit` to `failed`, appended in DESCENDING index order, deletes
exactly their timestamps, keeps every non-expired entry paired with
its own timestamp, and does not modify `pending`, `processed` or
`try_counter`. -/
theorem check_progress_scan_spec (now : Int) (s : ServiceState)
    (hlen : s.in_progress.length = s.time_stamps.length) :
    (check_progress_scan now s).in_progress =
      ((s.in_progress.zip s.time_stamps).filter
        (fun q => now - q.2 ≤ s.time_limit)).map Prod.fst ∧
    (check_progress_scan now s).time_stamps =
      ((s.in_progress.zip s.time_stamps).filter
        (fun q => now - q.2 ≤ s.time_limit)).map Prod.snd ∧
    (check_progress_scan now s).failed_blocks =
      s.failed_blocks ++ (((s.in_progress.zip s.time_stamps).filter
        (fun q => now - q.2 > s.time_limit)).map Prod.fst).reverse ∧
    (check_progress_scan now s).block_queue = s.block_queue ∧
    (check_progress_scan now s).processed_list = s.processed_list ∧
    (check_progress_scan now s).try_counter = s.try_counter := by
  have h := sweep_foldl_spec now s.time_limit s.time_stamps s.in_progress
    s.failed_blocks hlen
  simp only [check_progress_scan]
  rw [h]
  refine ⟨?_, ?_, ?_, ?_, ?_, ?_⟩ <;> first | rfl | trivial

/-- Closed-form instance of `check_progress_scan_spec`: entry 0 is
expired, entry 1 is not. -/
theorem check_progress_scan_spec_witness :
    ((⟨[], [[0, 0, 0], [1, 1, 1]], [0, 95], [], [], 0, 2, 10⟩ :
        ServiceState).in_progress.length =
      (⟨[], [[0, 0, 0], [1, 1, 1]], [0, 95], [], [], 0, 2, 10⟩ :
        ServiceState).time_stamps.length) ∧
    ((check_progress_scan 100
        ⟨[], [[0, 0, 0], [1, 1, 1]], [0, 95], [], [], 0, 2, 10⟩).in_progress =
      (((⟨[], [[0, 0, 0], [1, 1, 1]], [0, 95], [], [], 0, 2, 10⟩ :
          ServiceState).in_progress.zip
        (⟨[], [[0, 0, 0], [1, 1, 1]], [0, 95], [], [], 0, 2, 10⟩ :
          ServiceState).time_stamps).filter
        (fun q => 100 - q.2 ≤ (⟨[], [[0, 0, 0], [1, 1, 1]], [0, 95], [], [], 0, 2, 10⟩ :
          ServiceState).time_limit)).map Prod.fst ∧
    (check_progress_scan 100
        ⟨[], [[0, 0, 0], [1, 1, 1]], [0, 95], [], [], 0, 2, 10⟩).time_stamps =
      (((⟨[], [[0, 0, 0], [1, 1, 1]], [0, 95], [], [], 0, 2, 10⟩ :
          ServiceState).in_progress.zip
        (⟨[], [[0, 0, 0], [1, 1, 1]], [0, 95], [], [], 0, 2, 10⟩ :
          ServiceState).time_stamps).filter
        (fun q => 100 - q.2 ≤ (⟨[], [[0, 0, 0], [1, 1, 1]], [0, 95], [], [], 0, 2, 10⟩ :
          ServiceState).time_limit)).map Prod.snd ∧
    (check_progress_scan 100
        ⟨[], [[0, 0, 0], [1, 1, 1]], [0, 95], [], [], 0, 2, 10⟩).failed_blocks =
      (⟨[], [[0, 0, 0], [1, 1, 1]], [0, 95], [], [], 0, 2, 10⟩ :
          ServiceState).failed_blocks ++
        ((((⟨[], [[0, 0, 0], [1, 1, 1]], [0, 95], [], [], 0, 2, 10⟩ :
            ServiceState).in_progress.zip
          (⟨[], [[0, 0, 0], [1, 1, 1]], [0, 95], [], [], 0, 2, 10⟩ :
            ServiceState).time_stamps).filter
          (fun q => 100 - q.2 > (⟨[], [[0, 0, 0], [1, 1, 1]], [0, 95], [], [], 0, 2, 10⟩ :
            ServiceState).time_limit)).map Prod.fst).reverse ∧
    (check_progress_scan 100
        ⟨[], [[0, 0, 0], [1, 1, 1]], [0, 95], [], [], 0, 2, 10⟩).block_queue =
      (⟨[], [[0, 0, 0], [1, 1, 1]], [0, 95], [], [], 0, 2, 10⟩ :
        ServiceState).block_queue ∧
    (check_progress_scan 100
        ⟨[], [[0, 0, 0], [1, 1, 1]], [0, 95], [], [], 0, 2, 10⟩).processed_list =
      (⟨[], [[0, 0, 0], [1, 1, 1]], [0, 95], [], [], 0, 2, 10⟩ :
        ServiceState).processed_list ∧
    (check_progress_scan 100
        ⟨[], [[0, 0, 0], [1, 1, 1]], [0, 95], [], [], 0, 2, 10⟩).try_counter =
      (⟨[], [[0, 0, 0], [1, 1, 1]], [0, 95], [], [], 0, 2, 10⟩ :
        ServiceState).try_counter) :=
  ⟨rfl, check_progress_scan_spec 100
    ⟨[], [[0, 0, 0], [1, 1, 1]], [0, 95], [], [], 0, 2, 10⟩ rfl⟩

/-!  Preservation of the inventory invariant. -/

theorem requestDispatch_eq_some_ex {now : Int} {s : ServiceState} {b : Block}
    {s2 : ServiceState} (h : requestDispatch now s = some (b, s2)) :
    ∃ q, s.block_queue = q ++ [b] ∧
      s2 = { s with block_queue := q
                    in_progress := s.in_progress ++ [b]
                    time_stamps := s.time_stamps ++ [now] } := by
  unfold requestDispatch at h
  rcases hp : dequePop s.block_queue with _ | ⟨c, q⟩ <;> rw [hp] at h
  · cases h
  · simp only [Option.some.injEq, Prod.mk.injEq] at h
    rcases h with ⟨rfl, rfl⟩
    exact ⟨q, dequePop_eq_some_iff.mp hp, rfl⟩

theorem repopulate_queue_eq_some {now : Int} {s : ServiceState} {b : Block}
    {s2 : ServiceState} (h : repopulate_queue now s = some (b, s2)) :
    ∃ q2, s.failed_blocks.reverse ++ s.block_queue = q2 ++ [b] ∧
      s2 = { s with block_queue := q2
                    failed_blocks := []
                    in_progress := s.in_progress ++ [b]
                    time_stamps := s.time_stamps ++ [now] } := by
  simp only [repopulate_queue] at h
  rcases hp : dequePop (dequeExtendleft s.failed_blocks s.block_queue)
      with _ | ⟨c, q2⟩ <;> rw [hp] at h
  · cases h
  · simp only [Option.some.injEq, Prod.mk.injEq] at h
    rcases h with ⟨rfl, rfl⟩
    refine ⟨q2, ?_, rfl⟩
    rw [← dequeExtendleft_eq]
    exact dequePop_eq_some_iff.mp hp

theorem requestRetry_eq_some {now : Int} {s : ServiceState} {b : Block}
    {s2 : ServiceState} (h : requestRetry now s = some (b, s2)) :
    s.try_counter < s.num_retries ∧ s.failed_blocks ≠ [] ∧
    ∃ q2, s.failed_blocks.reverse ++ s.block_queue = q2 ++ [b] ∧
      s2 = { s with block_queue := q2
                    failed_blocks := []
                    in_progress := s.in_progress ++ [b]
                    time_stamps := s.time_stamps ++ [now]
                    try_counter := s.try_counter + 1 } := by
  unfold requestRetry at h
  split at h
  · rename_i hguard
    rcases hr : repopulate_queue now s with _ | ⟨c, s3⟩ <;> rw [hr] at h
    · cases h
    · simp only [Option.some.injEq, Prod.mk.injEq] at h
      rcases h with ⟨rfl, rfl⟩
      obtain ⟨q2, hq2, hs3⟩ := repopulate_queue_eq_some hr
      subst hs3
      exact ⟨hguard.1, hguard.2, q2, hq2, rfl⟩
  · cases h

theorem perm_singleton_append_eraseIdx {b : Block} :
    ∀ (l : List Block) (i : Nat), l[i]? = some b →
      l.Perm ([b] ++ l.eraseIdx i) := by
  intro l
  induction l with
  | nil => intro i h; cases i <;> cases h
  | cons a l ih =>
      intro i h
      cases i with
      | zero =>
          simp only [List.getElem?_cons_zero, Option.some.injEq] at h
          subst h
          simp only [List.eraseIdx_cons_zero, List.singleton_append]
          exact List.Perm.refl _
      | succ i =>
          simp only [List.getElem?_cons_succ] at h
          have h1 : (a :: l).Perm (a :: ([b] ++ l.eraseIdx i)) :=
            (ih i h).cons a
          have h2 : (a :: ([b] ++ l.eraseIdx i)).Perm
              ([b] ++ (a :: l).eraseIdx (i + 1)) := by
            simp only [List.eraseIdx_cons_succ, List.singleton_append]
            exact List.Perm.swap b a _
          exact h1.trans h2

theorem confirm_block_cases (b : Block) (s : ServiceState) :
    (confirm_block b s = (false, s)) ∨
    ∃ i, i < s.in_progress.length ∧ s.in_progress[i]? = some b ∧
      confirm_block b s = (true,
        { s with in_progress := s.in_progress.eraseIdx i
                 time_stamps := s.time_stamps.eraseIdx i
                 processed_list := s.processed_list ++ [b] }) := by
  rcases hfi : s.in_progress.findIdx? (fun x => x = b) with _ | i
  · left
    simp only [confirm_block, hfi]
  · right
    obtain ⟨hlt, hidx⟩ := List.findIdx?_eq_some_iff_findIdx_eq.mp hfi
    subst hidx
    refine ⟨_, hlt, ?_, ?_⟩
    · have hget := @List.findIdx_getElem _ (fun x => decide (x = b))
        s.in_progress hlt
      simp only [decide_eq_true_eq] at hget
      rw [List.getElem?_eq_getElem hlt, hget]
    · simp only [confirm_block, hfi]

theorem step_preserves_inv {s s2 : ServiceState} (h : Step s s2)
    (hi : Inv s) : Inv s2 := by
  rcases hi with ⟨hnd, hlen⟩
  cases h with
  | dispatch now b hreq =>
      obtain ⟨q, hq, hs2⟩ := requestDispatch_eq_some_ex hreq
      subst hs2
      constructor
      · have hperm : (allBlocks s).Perm (allBlocks
            { s with block_queue := q
                     in_progress := s.in_progress ++ [b]
                     time_stamps := s.time_stamps ++ [now] }) := by
          have hp : s.block_queue.Perm (q ++ [b]) := by
            rw [hq]
          rw [List.perm_iff_count]
          intro a
          have hc := List.perm_iff_count.mp hp a
          simp only [List.count_append] at hc
          simp only [allBlocks, List.count_append]
          omega
        exact hperm.nodup hnd
      · simp [hlen]
  | confirm b =>
      rcases confirm_block_cases b s with heq | ⟨i, hlt, hget, heq⟩
      · rw [heq]
        exact ⟨hnd, hlen⟩
      · rw [heq]
        constructor
        · have hpc := perm_singleton_append_eraseIdx s.in_progress i hget
          have hperm : (allBlocks s).Perm (allBlocks
              { s with in_progress := s.in_progress.eraseIdx i
                       time_stamps := s.time_stamps.eraseIdx i
                       processed_list := s.processed_list ++ [b] }) := by
            rw [List.perm_iff_count]
            intro a
            have hc := List.perm_iff_count.mp hpc a
            simp only [List.count_append] at hc
            simp only [allBlocks, List.count_append]
            omega
          exact hperm.nodup hnd
        · have hlt2 : i < s.time_stamps.length := by omega
          have h1 := List.length_eraseIdx s.in_progress i
          have h2 := List.length_eraseIdx s.time_stamps i
          rw [if_pos hlt] at h1
          rw [if_pos hlt2] at h2
          simp only at h1 h2 ⊢
          omega
  | sweep now =>
      have h := sweep_foldl_spec now s.time_limit s.time_stamps s.in_progress
        s.failed_blocks hlen
      have hcs : check_progress_scan now s =
          { s with
            in_progress := ((s.in_progress.zip s.time_stamps).filter
              (fun q => now - q.2 ≤ s.time_limit)).map Prod.fst
            time_stamps := ((s.in_progress.zip s.time_stamps).filter
              (fun q => now - q.2 ≤ s.time_limit)).map Prod.snd
            failed_blocks := s.failed_blocks ++
              (((s.in_progress.zip s.time_stamps).filter
                (fun q => now - q.2 > s.time_limit)).map Prod.fst).reverse } := by
        simp only [check_progress_scan]
        rw [h]
      rw [hcs]
      constructor
      · have hfc : (s.in_progress.zip s.time_stamps).filter
            (fun q => now - q.2 ≤ s.time_limit) =
              (s.in_progress.zip s.time_stamps).filter
                (fun q => !(now - q.2 > s.time_limit : Bool)) := by
          refine List.filter_congr ?_
          intro x _
          by_cases hx : now - x.2 > s.time_limit
          · have hx2 : ¬ (now - x.2 ≤ s.time_limit) := by omega
            simp [hx, hx2]
          · have hx2 : now - x.2 ≤ s.time_limit := by omega
            simp [hx, hx2]
        have hpart := List.filter_append_perm
          (fun q : Block × Int => now - q.2 > s.time_limit)
          (s.in_progress.zip s.time_stamps)
        have hmap := hpart.map Prod.fst
        rw [List.map_fst_zip s.in_progress s.time_stamps (le_of_eq hlen)]
          at hmap
        rw [List.map_append] at hmap
        have hperm : (allBlocks s).Perm (allBlocks
            { s with
              in_progress := ((s.in_progress.zip s.time_stamps).filter
                (fun q => now - q.2 ≤ s.time_limit)).map Prod.fst
              time_stamps := ((s.in_progress.zip s.time_stamps).filter
                (fun q => now - q.2 ≤ s.time_limit)).map Prod.snd
              failed_blocks := s.failed_blocks ++
                (((s.in_progress.zip s.time_stamps).filter
                  (fun q => now - q.2 > s.time_limit)).map Prod.fst).reverse }) := by
          rw [List.perm_iff_count]
          intro a
          have hc := List.perm_iff_count.mp hmap a
          simp only [List.count_append] at hc
          simp only [allBlocks, List.count_append, List.count_reverse, hfc]
          omega
        exact hperm.nodup hnd
      · simp
  | retry now b hreq =>
      obtain ⟨-, -, q2, hq2, hs2⟩ := requestRetry_eq_some hreq
      subst hs2
      constructor
      · have hperm : (allBlocks s).Perm (allBlocks
            { s with block_queue := q2
                     failed_blocks := []
                     in_progress := s.in_progress ++ [b]
                     time_stamps := s.time_stamps ++ [now]
                     try_counter := s.try_counter + 1 }) := by
          have hp : (s.failed_blocks.reverse ++ s.block_queue).Perm
              (q2 ++ [b]) := by
            rw [hq2]
          rw [List.perm_iff_count]
          intro a
          have hc := List.perm_iff_count.mp hp a
          simp only [List.count_append, List.count_reverse] at hc
          simp only [allBlocks, List.count_append, List.count_nil]
          omega
        exact hperm.nodup hnd
      · simp [hlen]

/-- C2: from an initial load of pairwise-distinct blocks, any
sequence of dispatches, confirms, sweeper scans and retry refills
keeps the four collections `pending`, `in_flight`, `processed`,
`failed` pairwise disjoint and keeps `in_flight` and the timestamp
list the same length. -/
theorem inventory_pairwise_disjoint (file : List Block) (tl : Int)
    (nr : Nat) (hfile : file.Nodup) {s : ServiceState}
    (hr : Reachable (initState file tl nr) s) :
    (s.block_queue.Disjoint s.in_progress ∧
     s.block_queue.Disjoint s.processed_list ∧
     s.block_queue.Disjoint s.failed_blocks ∧
     s.in_progress.Disjoint s.processed_list ∧
     s.in_progress.Disjoint s.failed_blocks ∧
     s.processed_list.Disjoint s.failed_blocks) ∧
    s.in_progress.length = s.time_stamps.length := by
  have hinv : Inv s := by
    induction hr with
    | refl =>
        constructor
        · simp only [allBlocks, initState, List.append_nil]
          exact List.nodup_reverse.mpr hfile
        · rfl
    | step hr2 hst ih => exact step_preserves_inv hst ih
  obtain ⟨hnd, hlen⟩ := hinv
  simp only [allBlocks, List.nodup_append, List.disjoint_append_right,
    List.disjoint_append_left] at hnd
  refine ⟨⟨?_, ?_, ?_, ?_, ?_, ?_⟩, hlen⟩ <;> tauto

/-- Closed-form instance of `inventory_pairwise_disjoint` at the
state reached by one dispatch from a two-block load. -/
theorem inventory_pairwise_disjoint_witness :
    ([[0, 0, 0], [1, 1, 1]] : List Block).Nodup ∧
    (((⟨[[1, 1, 1]], [[0, 0, 0]], [5], [], [], 0, 2, 100⟩ :
          ServiceState).block_queue.Disjoint
        (⟨[[1, 1, 1]], [[0, 0, 0]], [5], [], [], 0, 2, 100⟩ :
          ServiceState).in_progress ∧
      (⟨[[1, 1, 1]], [[0, 0, 0]], [5], [], [], 0, 2, 100⟩ :
          ServiceState).block_queue.Disjoint
        (⟨[[1, 1, 1]], [[0, 0, 0]], [5], [], [], 0, 2, 100⟩ :
          ServiceState).processed_list ∧
      (⟨[[1, 1, 1]], [[0, 0, 0]], [5], [], [], 0, 2, 100⟩ :
          ServiceState).block_queue.Disjoint
        (⟨[[1, 1, 1]], [[0, 0, 0]], [5], [], [], 0, 2, 100⟩ :
          ServiceState).failed_blocks ∧
      (⟨[[1, 1, 1]], [[0, 0, 0]], [5], [], [], 0, 2, 100⟩ :
          ServiceState).in_progress.Disjoint
        (⟨[[1, 1, 1]], [[0, 0, 0]], [5], [], [], 0, 2, 100⟩ :
          ServiceState).processed_list ∧
      (⟨[[1, 1, 1]], [[0, 0, 0]], [5], [], [], 0, 2, 100⟩ :
          ServiceState).in_progress.Disjoint
        (⟨[[1, 1, 1]], [[0, 0, 0]], [5], [], [], 0, 2, 100⟩ :
          ServiceState).failed_blocks ∧
      (⟨[[1, 1, 1]], [[0, 0, 0]], [5], [], [], 0, 2, 100⟩ :
          ServiceState).processed_list.Disjoint
        (⟨[[1, 1, 1]], [[0, 0, 0]], [5], [], [], 0, 2, 100⟩ :
          ServiceState).failed_blocks) ∧
      (⟨[[1, 1, 1]], [[0, 0, 0]], [5], [], [], 0, 2, 100⟩ :
          ServiceState).in_progress.length =
        (⟨[[1, 1, 1]], [[0, 0, 0]], [5], [], [], 0, 2, 100⟩ :
          ServiceState).time_stamps.length) :=
  ⟨by decide,
    inventory_pairwise_disjoint [[0, 0, 0], [1, 1, 1]] 100 2 (by decide)
      (Reachable.step Reachable.refl (Step.dispatch 5 [0, 0, 0] rfl))⟩

end Butler
